import Mathlib

/-!
Verification of the video-thumbnail utilities (`thumbnailGenerator`) and the
upload handler (`ThumbnailUploader.handleFiles`).

The source is browser TypeScript.  The shallow embedding below renders it as
pure Lean functions:

* a `File` becomes `MFile` (its `name` and declared media `type`);
* the ambient browser behaviour (canvas 2d context availability, video
  decoding, `canvas.toBlob` encoding) becomes an explicit `BrowserEnv`;
* `generateThumbnailFromVideo` becomes an `Except ThumbError Thumbnail`
  following the event flow of the source: the synchronous context check,
  then the `error` event, then `loadedmetadata` (canvas sized to
  `videoWidth × videoHeight`, `currentTime = Math.min(t, duration)`), then
  `seeked` (draw + `toBlob('image/jpeg', 0.8)`).  Drawing a decoded frame to
  the canvas is modelled as total, so the `catch` around `drawImage` is
  unreachable in the model;
* the sequential `for`/`await` loop of `batchGenerateThumbnails` becomes a
  structural recursion producing a `BatchTrace`: the result list, the list of
  `onProgress` calls in order, and the list of extractor invocations
  (`attempts`) in order.
-/

/-- Model of a browser `File`: its name and declared media type. -/
structure MFile where
  name : String
  type : String
  deriving DecidableEq

/-- Metadata the decoder reports on `loadedmetadata`: `video.duration`,
`video.videoWidth`, `video.videoHeight`. -/
structure VideoMeta where
  duration : ℚ
  videoWidth : Nat
  videoHeight : Nat
  deriving DecidableEq

/-- Ambient browser behaviour: whether `canvas.getContext('2d')` yields a
context, what the decoder reports for each file (`none` meaning the `error`
event fired), and whether `canvas.toBlob` produces a blob for a given file
and capture offset. -/
structure BrowserEnv where
  ctxAvailable : Bool
  decodeResult : MFile → Option VideoMeta
  encodeOk : MFile → ℚ → Bool

/-- The three rejection reasons of `generateThumbnailFromVideo`. -/
inductive ThumbError where
  | ctxUnavailable
  | loadFailed
  | blobFailed
  deriving DecidableEq

/-- Message of each rejection, as in the source. -/
def errorMessage : ThumbError → String
  | .ctxUnavailable => "Canvas context not available"
  | .loadFailed => "Video failed to load"
  | .blobFailed => "Failed to create thumbnail blob"

/-- The image handle the extractor resolves with: encoding format and
quality passed to `toBlob`, the canvas dimensions, and the offset the frame
was captured at. -/
structure Thumbnail where
  format : String
  quality : ℚ
  width : Nat
  height : Nat
  capturedAt : ℚ
  deriving DecidableEq

/-- Model of `Math.min` on the rational time line. -/
def mathMin (a b : ℚ) : ℚ := if a ≤ b then a else b

/-- Embedding of `generateThumbnailFromVideo(videoFile, timeInSeconds)`:
check the canvas context, load the video (the `error` event rejects with
"Video failed to load"), on `loadedmetadata` size the canvas to
`videoWidth × videoHeight` and seek to `Math.min(timeInSeconds, duration)`,
on `seeked` draw the frame and encode with `toBlob('image/jpeg', 0.8)`,
rejecting with "Failed to create thumbnail blob" when no blob is produced. -/
def generateThumbnailFromVideo (env : BrowserEnv) (videoFile : MFile)
    (timeInSeconds : ℚ) : Except ThumbError Thumbnail :=
  if env.ctxAvailable = false then
    .error .ctxUnavailable
  else
    match env.decodeResult videoFile with
    | none => .error .loadFailed
    | some meta =>
      let t := mathMin timeInSeconds meta.duration
      if env.encodeOk videoFile t then
        .ok ⟨"image/jpeg", 0.8, meta.videoWidth, meta.videoHeight, t⟩
      else
        .error .blobFailed

/-- Character class `[^/.]` of the extension regex. -/
def extChar (c : Char) : Bool := !(c == '.') && !(c == '/')

/-- Scan (over the reversed name, past its last character) for the dot that
opens the final extension; characters before it must match `[^/.]`. -/
def scanExt : List Char → Option (List Char)
  | [] => none
  | c :: rest => if c = '.' then some rest else if c = '/' then none else scanExt rest

/-- Match of the regex `\.[^/.]+$` against the reversed character list:
`some baseRev` gives the (reversed) part before the matched suffix. -/
def stripExtRev : List Char → Option (List Char)
  | [] => none
  | c :: rest => if extChar c then scanExt rest else none

/-- Embedding of `videoFileName.replace(/\.[^/.]+$/, '')`. -/
def stripFinalExtension (cs : List Char) : List Char :=
  match stripExtRev cs.reverse with
  | some baseRev => baseRev.reverse
  | none => cs

/-- Embedding of `createThumbnailFileName`. -/
def createThumbnailFileName (videoFileName : String) : String :=
  String.mk (stripFinalExtension videoFileName.data) ++ "-thumb.jpg"

/-- Whitelist of declared media types, as in `isValidVideoFile`. -/
def validTypes : List String :=
  ["video/mp4", "video/webm", "video/ogg", "video/quicktime", "video/x-msvideo"]

/-- Embedding of `isValidVideoFile`. -/
def isValidVideoFile (file : MFile) : Bool :=
  validTypes.contains file.type

/-- One entry of the result sequence of `batchGenerateThumbnails`:
`{ file, thumbnail, fileName }`. -/
structure BatchResult where
  file : MFile
  thumbnail : Thumbnail
  fileName : String
  deriving DecidableEq

/-- Observable trace of one run of the batch loop: the `results` array it
returns, the `onProgress` calls it makes (in order), and the inputs it
passes to `generateThumbnailFromVideo` (in order). -/
structure BatchTrace where
  results : List BatchResult
  progressCalls : List (Nat × Nat)
  attempts : List MFile
  deriving DecidableEq

/-- Body of the `for (let i = 0; ...)` loop of `batchGenerateThumbnails`,
from loop index `i` on: each iteration awaits
`generateThumbnailFromVideo(videoFiles[i], timeInSeconds)`; on success it
pushes `{file, thumbnail, fileName}` and calls `onProgress(i + 1, total)`;
on failure it only logs and moves on (no push, no progress call). -/
def batchGo (env : BrowserEnv) (t : ℚ) (total : Nat) :
    Nat → List MFile → BatchTrace
  | _, [] => ⟨[], [], []⟩
  | i, f :: rest =>
    match generateThumbnailFromVideo env f t with
    | .ok th =>
      ⟨⟨f, th, createThumbnailFileName f.name⟩ :: (batchGo env t total (i + 1) rest).results,
       (i + 1, total) :: (batchGo env t total (i + 1) rest).progressCalls,
       f :: (batchGo env t total (i + 1) rest).attempts⟩
    | .error _ =>
      ⟨(batchGo env t total (i + 1) rest).results,
       (batchGo env t total (i + 1) rest).progressCalls,
       f :: (batchGo env t total (i + 1) rest).attempts⟩

/-- Embedding of `batchGenerateThumbnails(videoFiles, timeInSeconds,
onProgress)`. -/
def batchGenerateThumbnails (env : BrowserEnv) (videoFiles : List MFile)
    (timeInSeconds : ℚ) : BatchTrace :=
  batchGo env timeInSeconds videoFiles.length 0 videoFiles

/-- Whether extraction of this file succeeds in this environment. -/
def extractionSucceeds (env : BrowserEnv) (t : ℚ) (f : MFile) : Bool :=
  match generateThumbnailFromVideo env f t with
  | .ok _ => true
  | .error _ => false

/-- Embedding of `ThumbnailUploader.handleFiles`: filter the selection
through `isValidVideoFile`; if nothing is left, alert and return (`none`);
otherwise run `batchGenerateThumbnails` on the surviving files at the
1-second mark. -/
def handleFiles (env : BrowserEnv) (files : List MFile) : Option BatchTrace :=
  let videoFiles := files.filter (fun f => isValidVideoFile f)
  if videoFiles.length = 0 then none
  else some (batchGenerateThumbnails env videoFiles 1)

/-- Pairing of each list element with its 0-based index, from `i` on (the
loop counter of the batch loop). -/
def enumFrom {α : Type} : Nat → List α → List (Nat × α)
  | _, [] => []
  | i, a :: as => (i, a) :: enumFrom (i + 1) as

/- Concrete data for witnesses and counterexamples: three uploads whose
declared types are all accepted, in an environment where the second one
(`fileB`) fails to decode and everything else decodes to a 10-second
640×360 video. -/

/-- Concrete upload that decodes fine. -/
def fileA : MFile := ⟨"a.mp4", "video/mp4"⟩

/-- Concrete upload that fails to decode in `env3`. -/
def fileB : MFile := ⟨"b.mp4", "video/mp4"⟩

/-- Concrete upload that decodes fine. -/
def fileC : MFile := ⟨"c.mp4", "video/mp4"⟩

/-- Concrete upload with a non-video declared type. -/
def badFile : MFile := ⟨"pic.jpg", "image/jpeg"⟩

/-- Concrete browser environment: context available, encoder always
produces bytes, every file decodes to a 10-second 640×360 video except
`b.mp4`, which is corrupt. -/
def env3 : BrowserEnv :=
  ⟨true, fun f => if f.name = "b.mp4" then none else some ⟨10, 640, 360⟩,
   fun _ _ => true⟩

/-- The three-upload batch of the end-to-end scenario. -/
def files3 : List MFile := [fileA, fileB, fileC]


section TraceLemmas

variable (env : BrowserEnv) (t : ℚ) (total : Nat)

/-- Every loop iteration invokes the extractor on its file exactly once,
whatever the outcome. -/
theorem batchGo_attempts :
    ∀ (i : Nat) (files : List MFile), (batchGo env t total i files).attempts = files := by
  intro i files
  induction files generalizing i with
  | nil => rfl
  | cons f rest ih =>
    cases hg : generateThumbnailFromVideo env f t with
    | ok th => simp [batchGo, hg, ih]
    | error e => simp [batchGo, hg, ih]

/-- The result list collects, in input order, exactly the successful
extractions together with their suggested file names. -/
theorem batchGo_results :
    ∀ (i : Nat) (files : List MFile),
      (batchGo env t total i files).results =
        files.filterMap (fun f =>
          match generateThumbnailFromVideo env f t with
          | .ok th => some ⟨f, th, createThumbnailFileName f.name⟩
          | .error _ => none) := by
  intro i files
  induction files generalizing i with
  | nil => rfl
  | cons f rest ih =>
    cases hg : generateThumbnailFromVideo env f t with
    | ok th => simp [batchGo, hg, ih, List.filterMap_cons]
    | error e => simp [batchGo, hg, ih, List.filterMap_cons]

/-- Projecting the result list to its source files yields the successful
inputs, in input order. -/
theorem batchGo_results_map_file :
    ∀ (i : Nat) (files : List MFile),
      ((batchGo env t total i files).results).map (fun r => r.file) =
        files.filter (fun f => extractionSucceeds env t f) := by
  intro i files
  induction files generalizing i with
  | nil => rfl
  | cons f rest ih =>
    cases hg : generateThumbnailFromVideo env f t with
    | ok th => simp [batchGo, hg, ih, extractionSucceeds, List.filter_cons]
    | error e => simp [batchGo, hg, ih, extractionSucceeds, List.filter_cons]

/-- The progress calls are `(index + 1, total)` for exactly the successful
iterations, in loop order. -/
theorem batchGo_progress :
    ∀ (i : Nat) (files : List MFile),
      (batchGo env t total i files).progressCalls =
        ((enumFrom i files).filter (fun p => extractionSucceeds env t p.2)).map
          (fun p => (p.1 + 1, total)) := by
  intro i files
  induction files generalizing i with
  | nil => rfl
  | cons f rest ih =>
    cases hg : generateThumbnailFromVideo env f t with
    | ok th => simp [batchGo, hg, ih, extractionSucceeds, enumFrom, List.filter_cons]
    | error e => simp [batchGo, hg, ih, extractionSucceeds, enumFrom, List.filter_cons]

end TraceLemmas

/-- Splitting a list by a Boolean predicate preserves its length. -/
theorem length_filter_add_length_filter_not {α : Type} (p : α → Bool) :
    ∀ l : List α, (l.filter p).length + (l.filter (fun a => !p a)).length = l.length := by
  intro l
  induction l with
  | nil => rfl
  | cons a as ih =>
    cases hp : p a <;> simp [List.filter_cons, hp] <;> omega

/-- Indices produced by `enumFrom i` are at least `i`. -/
theorem enumFrom_le {α : Type} :
    ∀ (i : Nat) (l : List α) (p : Nat × α), p ∈ enumFrom i l → i ≤ p.1 := by
  intro i l
  induction l generalizing i with
  | nil => intro p hp; simp [enumFrom] at hp
  | cons a as ih =>
    intro p hp
    rcases (List.mem_cons).1 hp with h | h
    · subst h; exact Nat.le_refl i
    · exact Nat.le_of_succ_le (ih (i + 1) p h)

/-- Indices produced by `enumFrom` are strictly increasing along the list. -/
theorem enumFrom_pairwise {α : Type} :
    ∀ (i : Nat) (l : List α), List.Pairwise (fun p q => p.1 < q.1) (enumFrom i l) := by
  intro i l
  induction l generalizing i with
  | nil => exact List.Pairwise.nil
  | cons a as ih =>
    refine List.Pairwise.cons ?_ (ih (i + 1))
    intro q hq
    exact Nat.lt_of_lt_of_le (Nat.lt_succ_self i) (enumFrom_le (i + 1) as q hq)

/-- Reversal of a list split at a distinguished element. -/
theorem reverse_append_cons {α : Type} (xs ys : List α) (c : α) :
    (xs ++ c :: ys).reverse = ys.reverse ++ c :: xs.reverse := by
  simp

/-- Unfolding of the Boolean character class `[^/.]`. -/
theorem extChar_eq_true_iff (c : Char) : extChar c = true ↔ c ≠ '.' ∧ c ≠ '/' := by
  simp [extChar]

/-- A run of `[^/.]` characters followed by a dot is consumed by `scanExt`. -/
theorem scanExt_append (es bs : List Char) (h : ∀ c ∈ es, extChar c = true) :
    scanExt (es ++ '.' :: bs) = some bs := by
  induction es with
  | nil => simp [scanExt]
  | cons c es ih =>
    obtain ⟨h1, h2⟩ := (extChar_eq_true_iff c).1 (h c (List.mem_cons_self c es))
    simp only [List.cons_append, scanExt, if_neg h1, if_neg h2]
    exact ih (fun d hd => h d (List.mem_cons_of_mem c hd))

/-- On a reversed name ending (in original order) in a nonempty `[^/.]` run
after a dot, `stripExtRev` returns everything before the dot. -/
theorem stripExtRev_append (es bs : List Char) (hne : es ≠ [])
    (h : ∀ c ∈ es, extChar c = true) :
    stripExtRev (es ++ '.' :: bs) = some bs := by
  cases es with
  | nil => exact absurd rfl hne
  | cons c es' =>
    have hc : extChar c = true := h c (List.mem_cons_self c es')
    simp only [List.cons_append, stripExtRev, hc, if_true]
    exact scanExt_append es' bs (fun d hd => h d (List.mem_cons_of_mem c hd))

/-- A name of the shape `base ++ "." ++ ext` with `ext` a nonempty `[^/.]`
run loses exactly that suffix. -/
theorem stripFinalExtension_append (bs es : List Char) (hne : es ≠ [])
    (h : ∀ c ∈ es, extChar c = true) :
    stripFinalExtension (bs ++ '.' :: es) = bs := by
  have hs : stripExtRev (es.reverse ++ '.' :: bs.reverse) = some bs.reverse :=
    stripExtRev_append es.reverse bs.reverse
      (by simpa using hne)
      (fun c hc => h c (List.mem_reverse.1 hc))
  simp [stripFinalExtension, reverse_append_cons, hs]

/-- A successful `scanExt` decomposes its input as an `[^/.]` run, then a
dot, then the returned remainder. -/
theorem scanExt_eq_some (l : List Char) :
    ∀ b : List Char, scanExt l = some b →
      ∃ e, l = e ++ '.' :: b ∧ ∀ c ∈ e, extChar c = true := by
  induction l with
  | nil => intro b h; simp [scanExt] at h
  | cons c rest ih =>
    intro b h
    by_cases hc : c = '.'
    · subst hc
      simp [scanExt] at h
      exact ⟨[], by simp [h], by simp⟩
    · by_cases hs : c = '/'
      · subst hs
        simp [scanExt, hc] at h
      · simp only [scanExt, if_neg hc, if_neg hs] at h
        obtain ⟨e, he, hall⟩ := ih b h
        refine ⟨c :: e, by simp [he], ?_⟩
        intro d hd
        rcases List.mem_cons.1 hd with h' | h'
        · subst h'; simp [extChar, hc, hs]
        · exact hall d h'

/-- A successful `stripExtRev` decomposes its input as a nonempty `[^/.]`
run, then a dot, then the returned remainder. -/
theorem stripExtRev_eq_some (l b : List Char) (h : stripExtRev l = some b) :
    ∃ e, l = e ++ '.' :: b ∧ e ≠ [] ∧ ∀ c ∈ e, extChar c = true := by
  cases l with
  | nil => simp [stripExtRev] at h
  | cons c rest =>
    by_cases hc : extChar c = true
    · simp only [stripExtRev, hc, if_true] at h
      obtain ⟨e, he, hall⟩ := scanExt_eq_some rest b h
      refine ⟨c :: e, by simp [he], by simp, ?_⟩
      intro d hd
      rcases List.mem_cons.1 hd with h' | h'
      · subst h'; exact hc
      · exact hall d h'
    · simp [stripExtRev, hc] at h

/-- Claim C6: for every file name of the shape `base.ext` (with `ext` a
nonempty run of characters other than dot and slash), only that trailing
extension is removed before appending the fixed suffix `-thumb.jpg`; in
particular `"clip.mp4" ↦ "clip-thumb.jpg"` and
`"archive.tar.mp4" ↦ "archive.tar-thumb.jpg"`. -/
theorem createThumbnailFileName_strips_final_extension :
    (∀ base ext : String, ext.data ≠ [] →
        (∀ c ∈ ext.data, c ≠ '.' ∧ c ≠ '/') →
        createThumbnailFileName (base ++ "." ++ ext) = base ++ "-thumb.jpg") ∧
    createThumbnailFileName "clip.mp4" = "clip-thumb.jpg" ∧
    createThumbnailFileName "archive.tar.mp4" = "archive.tar-thumb.jpg" := by
  refine ⟨?_, by decide, by decide⟩
  intro base ext hne hext
  have hdot : (".").data = ['.'] := rfl
  have hdata : (base ++ "." ++ ext).data = base.data ++ '.' :: ext.data := by
    simp [String.data_append, hdot]
  show String.mk (stripFinalExtension (base ++ "." ++ ext).data) ++ "-thumb.jpg" =
    base ++ "-thumb.jpg"
  rw [hdata, stripFinalExtension_append base.data ext.data hne
    (fun c hc => (extChar_eq_true_iff c).2 (hext c hc))]

/-- Concrete instantiation of `createThumbnailFileName_strips_final_extension`
at `base = "clip"`, `ext = "mp4"`. -/
theorem createThumbnailFileName_strips_final_extension_witness :
    createThumbnailFileName ("clip" ++ "." ++ "mp4") = "clip" ++ "-thumb.jpg" :=
  createThumbnailFileName_strips_final_extension.1 "clip" "mp4" (by decide) (by decide)

/-- Claim C10: a name with no final extension (no trailing `.` followed by a
nonempty run of characters other than dot and slash) is kept whole, and a
name that is only an extension, such as `".mp4"`, is stripped entirely. -/
theorem createThumbnailFileName_without_extension :
    (∀ s : String,
        (¬ ∃ bs es : List Char, s.data = bs ++ '.' :: es ∧ es ≠ [] ∧
            ∀ c ∈ es, c ≠ '.' ∧ c ≠ '/') →
        createThumbnailFileName s = s ++ "-thumb.jpg") ∧
    createThumbnailFileName ".mp4" = "-thumb.jpg" := by
  refine ⟨?_, by decide⟩
  intro s h
  cases hsr : stripExtRev s.data.reverse with
  | none =>
    have hstrip : stripFinalExtension s.data = s.data := by
      simp [stripFinalExtension, hsr]
    show String.mk (stripFinalExtension s.data) ++ "-thumb.jpg" = s ++ "-thumb.jpg"
    rw [hstrip]
  | some bRev =>
    exfalso
    obtain ⟨e, he, hne, hall⟩ := stripExtRev_eq_some _ _ hsr
    apply h
    refine ⟨bRev.reverse, e.reverse, ?_, by simpa using hne, ?_⟩
    · have h2 := congrArg List.reverse he
      rw [List.reverse_reverse, reverse_append_cons] at h2
      exact h2
    · intro c hc
      exact (extChar_eq_true_iff c).1 (hall c (List.mem_reverse.1 hc))

/-- Concrete instantiation of `createThumbnailFileName_without_extension` at
the extensionless name `"clip"`. -/
theorem createThumbnailFileName_without_extension_witness :
    createThumbnailFileName "clip" = "clip" ++ "-thumb.jpg" :=
  createThumbnailFileName_without_extension.1 "clip" (by
    rintro ⟨bs, es, hdata, hne, hall⟩
    have h1 : ('.' : Char) ∈ bs ++ '.' :: es :=
      List.mem_append_right bs (List.mem_cons_self '.' es)
    rw [← hdata] at h1
    exact absurd h1 (by decide))

/-- Claim C7: `isValidVideoFile` accepts exactly the five whitelisted
declared media types; in particular `video/mp4` is accepted and
`image/jpeg` is rejected. -/
theorem isValidVideoFile_whitelist :
    (∀ f : MFile, isValidVideoFile f = true ↔
        (f.type = "video/mp4" ∨ f.type = "video/webm" ∨ f.type = "video/ogg" ∨
         f.type = "video/quicktime" ∨ f.type = "video/x-msvideo")) ∧
    isValidVideoFile ⟨"clip.mp4", "video/mp4"⟩ = true ∧
    isValidVideoFile ⟨"photo.jpg", "image/jpeg"⟩ = false := by
  refine ⟨?_, by decide, by decide⟩
  intro f
  simp [isValidVideoFile, validTypes]

/-- Source `Math.min` agrees with the order-theoretic minimum. -/
theorem mathMin_eq_min (a b : ℚ) : mathMin a b = min a b := by
  unfold mathMin
  by_cases h : a ≤ b
  · rw [if_pos h, min_eq_left h]
  · rw [if_neg h, min_eq_right (le_of_not_le h)]

/-- Claim C5: whenever extraction resolves, the frame was captured at the
clamped offset `min(offsetSeconds, duration)`; in particular for a clip
shorter than the requested offset the effective capture offset is the
clip's duration. -/
theorem generateThumbnail_clamps_offset :
    ∀ (env : BrowserEnv) (f : MFile) (timeInSeconds : ℚ) (m : VideoMeta)
      (th : Thumbnail),
      env.decodeResult f = some m →
      generateThumbnailFromVideo env f timeInSeconds = .ok th →
      th.capturedAt = min timeInSeconds m.duration ∧
        (m.duration < timeInSeconds → th.capturedAt = m.duration) := by
  intro env f t m th hd hok
  cases hctx : env.ctxAvailable with
  | false => simp [generateThumbnailFromVideo, hctx] at hok
  | true =>
    cases henc : env.encodeOk f (mathMin t m.duration) with
    | false => simp [generateThumbnailFromVideo, hctx, hd, henc] at hok
    | true =>
      simp [generateThumbnailFromVideo, hctx, hd, henc] at hok
      subst hok
      refine ⟨mathMin_eq_min t m.duration, fun hlt => ?_⟩
      show mathMin t m.duration = m.duration
      rw [mathMin_eq_min]
      exact min_eq_right (le_of_lt hlt)

/-- Concrete short-clip environment for the clamp witness: every file
decodes to a 2-second 320×240 video. -/
def env5 : BrowserEnv := ⟨true, fun _ => some ⟨2, 320, 240⟩, fun _ _ => true⟩

/-- Concrete upload for the clamp witness. -/
def file5 : MFile := ⟨"short.mp4", "video/mp4"⟩

/-- Thumbnail produced for `file5` at requested offset 5 in `env5`. -/
def th5 : Thumbnail := ⟨"image/jpeg", 0.8, 320, 240, mathMin 5 2⟩

/-- Concrete instantiation of `generateThumbnail_clamps_offset`: requested
offset 5 on a 2-second clip captures at offset 2. -/
theorem generateThumbnail_clamps_offset_witness :
    th5.capturedAt = min 5 (2 : ℚ) ∧ th5.capturedAt = (2 : ℚ) :=
  ⟨(generateThumbnail_clamps_offset env5 file5 5 ⟨2, 320, 240⟩ th5 rfl rfl).1,
   (generateThumbnail_clamps_offset env5 file5 5 ⟨2, 320, 240⟩ th5 rfl rfl).2
     (by norm_num)⟩

/-- Claim C8: for a decodable input whose duration is at least the
requested offset, in an environment where the rasterization surface and
the encoder work, extraction resolves with a JPEG at quality 0.8 whose
pixel dimensions are exactly the video's native decoded dimensions, captured
at the requested offset. -/
theorem generateThumbnail_format_and_dimensions :
    ∀ (env : BrowserEnv) (f : MFile) (timeInSeconds : ℚ) (m : VideoMeta),
      env.ctxAvailable = true →
      env.decodeResult f = some m →
      timeInSeconds ≤ m.duration →
      env.encodeOk f (mathMin timeInSeconds m.duration) = true →
      generateThumbnailFromVideo env f timeInSeconds =
        .ok ⟨"image/jpeg", 0.8, m.videoWidth, m.videoHeight, timeInSeconds⟩ := by
  intro env f t m hctx hd hle henc
  have hmin : mathMin t m.duration = t := by
    rw [mathMin_eq_min]; exact min_eq_left hle
  rw [hmin] at henc
  simp [generateThumbnailFromVideo, hctx, hd, henc, hmin]

/-- Concrete instantiation of `generateThumbnail_format_and_dimensions`:
a 10-second 640×360 video sampled at 1 second yields a 640×360 JPEG at
quality 0.8. -/
theorem generateThumbnail_format_and_dimensions_witness :
    generateThumbnailFromVideo env3 fileA 1 =
      .ok ⟨"image/jpeg", 0.8, 640, 360, 1⟩ :=
  generateThumbnail_format_and_dimensions env3 fileA 1 ⟨10, 640, 360⟩
    rfl rfl (by norm_num) rfl

/-- Claim C9: extraction fails in exactly three distinguishable cases —
the canvas-context precondition (checked before the video is even loaded,
so it wins over a decode failure), a decode failure, and a missing encoder
blob after a successful decode — and each carries its own message. -/
theorem generateThumbnail_error_taxonomy :
    (∀ (env : BrowserEnv) (f : MFile) (timeInSeconds : ℚ),
      (generateThumbnailFromVideo env f timeInSeconds = .error .ctxUnavailable ↔
        env.ctxAvailable = false) ∧
      (generateThumbnailFromVideo env f timeInSeconds = .error .loadFailed ↔
        env.ctxAvailable = true ∧ env.decodeResult f = none) ∧
      (generateThumbnailFromVideo env f timeInSeconds = .error .blobFailed ↔
        env.ctxAvailable = true ∧ ∃ m, env.decodeResult f = some m ∧
          env.encodeOk f (mathMin timeInSeconds m.duration) = false)) ∧
    errorMessage .ctxUnavailable = "Canvas context not available" ∧
    errorMessage .loadFailed = "Video failed to load" ∧
    errorMessage .blobFailed = "Failed to create thumbnail blob" := by
  refine ⟨?_, rfl, rfl, rfl⟩
  intro env f t
  cases hctx : env.ctxAvailable with
  | false => refine ⟨?_, ?_, ?_⟩ <;> simp [generateThumbnailFromVideo, hctx]
  | true =>
    cases hd : env.decodeResult f with
    | none => refine ⟨?_, ?_, ?_⟩ <;> simp [generateThumbnailFromVideo, hctx, hd]
    | some m =>
      cases henc : env.encodeOk f (mathMin t m.duration) with
      | false =>
        refine ⟨?_, ?_, ?_⟩ <;> simp [generateThumbnailFromVideo, hctx, hd, henc]
      | true =>
        refine ⟨?_, ?_, ?_⟩ <;> simp [generateThumbnailFromVideo, hctx, hd, henc]

/-- Claim C4: the loop attempts every input exactly once, in input order
(the trace of extractor invocations is the input list itself), and the
result sequence lists exactly the successful inputs in input order. -/
theorem batch_sequential_in_order :
    ∀ (env : BrowserEnv) (files : List MFile) (timeInSeconds : ℚ),
      (batchGenerateThumbnails env files timeInSeconds).attempts = files ∧
      ((batchGenerateThumbnails env files timeInSeconds).results).map
          (fun r => r.file) =
        files.filter (fun f => extractionSucceeds env timeInSeconds f) :=
  fun env files t =>
    ⟨batchGo_attempts env t files.length 0 files,
     batchGo_results_map_file env t files.length 0 files⟩

/-- Claim C3: the batch never fails as a whole — every per-item failure is
swallowed at the item boundary — so the result sequence has length `N − K`
where `K` is the number of failing inputs, and every entry of the result
sequence comes from a successful input. -/
theorem batch_skips_failures :
    ∀ (env : BrowserEnv) (files : List MFile) (timeInSeconds : ℚ),
      (batchGenerateThumbnails env files timeInSeconds).results.length =
        files.length -
          (files.filter (fun f => !extractionSucceeds env timeInSeconds f)).length ∧
      ∀ r ∈ (batchGenerateThumbnails env files timeInSeconds).results,
        extractionSucceeds env timeInSeconds r.file = true := by
  intro env files t
  rw [show batchGenerateThumbnails env files t = batchGo env t files.length 0 files
    from rfl]
  constructor
  · have h1 := congrArg List.length (batchGo_results_map_file env t files.length 0 files)
    rw [List.length_map] at h1
    have h2 := length_filter_add_length_filter_not
      (fun f => extractionSucceeds env t f) files
    omega
  · intro r hr
    have hres := batchGo_results env t files.length 0 files
    rw [hres] at hr
    obtain ⟨f, hf, hmatch⟩ := List.mem_filterMap.1 hr
    cases hg : generateThumbnailFromVideo env f t with
    | ok th =>
      rw [hg] at hmatch
      simp only [Option.some.injEq] at hmatch
      rw [← hmatch]
      simp [extractionSucceeds, hg]
    | error e =>
      rw [hg] at hmatch
      simp at hmatch

/-- Thumbnail produced for `fileA` (and `fileC`) in `env3` at the 1-second
mark. -/
def thumbA : Thumbnail := ⟨"image/jpeg", 0.8, 640, 360, 1⟩

/-- Batch result entry for `fileA` in `env3`. -/
def rA : BatchResult := ⟨fileA, thumbA, "a-thumb.jpg"⟩

/-- Concrete instantiation of `batch_skips_failures` on the three-upload
batch whose second item is corrupt. -/
theorem batch_skips_failures_witness :
    (batchGenerateThumbnails env3 files3 1).results.length =
      files3.length -
        (files3.filter (fun f => !extractionSucceeds env3 1 f)).length ∧
    extractionSucceeds env3 1 rA.file = true :=
  ⟨(batch_skips_failures env3 files3 1).1,
   (batch_skips_failures env3 files3 1).2 rA (List.Mem.head _)⟩

/-- Claim C1 (counterexample): in the end-to-end scenario — three accepted
uploads, the second corrupt — the progress callback fires only twice, with
`(1,3)` and `(3,3)`, not three times with `(1,3), (2,3), (3,3)` as claimed:
the source calls `onProgress` inside the `try` block, after the successful
push, so a failed item produces no progress call. -/
theorem batch_progress_counterexample :
    files3.length = 3 ∧
    (files3.filter (fun f => !extractionSucceeds env3 1 f)).length = 1 ∧
    isValidVideoFile fileB = true ∧
    (batchGenerateThumbnails env3 files3 1).progressCalls = [(1, 3), (3, 3)] ∧
    (batchGenerateThumbnails env3 files3 1).progressCalls ≠
      [(1, 3), (2, 3), (3, 3)] :=
  ⟨rfl, by decide, by decide, by decide, by decide⟩

/-- Claim C1 (amended): `onProgress` is invoked once per successful item
only, in loop order, with `completed` equal to the item's 1-based input
index (so the values are strictly increasing but skip failed items) and
`total` equal to the input length; in the three-upload scenario with the
second item corrupt it fires `(1,3)` then `(3,3)`. -/
theorem batch_progress_amended :
    (∀ (env : BrowserEnv) (files : List MFile) (timeInSeconds : ℚ),
      (batchGenerateThumbnails env files timeInSeconds).progressCalls =
        ((enumFrom 0 files).filter
            (fun p => extractionSucceeds env timeInSeconds p.2)).map
          (fun p => (p.1 + 1, files.length)) ∧
      List.Pairwise (fun a b => a < b)
        (((batchGenerateThumbnails env files timeInSeconds).progressCalls).map
          (fun pc => pc.1))) ∧
    (batchGenerateThumbnails env3 files3 1).progressCalls = [(1, 3), (3, 3)] := by
  refine ⟨?_, by decide⟩
  intro env files t
  rw [show batchGenerateThumbnails env files t = batchGo env t files.length 0 files
    from rfl]
  refine ⟨batchGo_progress env t files.length 0 files, ?_⟩
  rw [batchGo_progress env t files.length 0 files, List.map_map]
  have hp : List.Pairwise (fun p q => p.1 < q.1)
      ((enumFrom 0 files).filter
        (fun p => extractionSucceeds env t p.2)) :=
    List.Pairwise.sublist (List.filter_sublist _) (enumFrom_pairwise 0 files)
  exact List.Pairwise.map _ (fun a b hab => Nat.succ_lt_succ hab) hp

/-- Claim C2 (counterexample): `batchGenerateThumbnails` itself performs no
validation — handed a file rejected by `isValidVideoFile`, it still invokes
the extractor on it. -/
theorem batch_no_validation_counterexample :
    isValidVideoFile badFile = false ∧
    (batchGenerateThumbnails env3 [badFile] 1).attempts = [badFile] :=
  ⟨by decide, by decide⟩

/-- Claim C2 (amended): the validation happens in the caller —
`handleFiles` filters its selection through `isValidVideoFile` before
invoking the batch runner — so in the upload pipeline every file that
reaches the extractor was accepted by the whitelist predicate. -/
theorem handleFiles_only_valid_reach_extractor :
    ∀ (env : BrowserEnv) (files : List MFile) (tr : BatchTrace),
      handleFiles env files = some tr →
      ∀ f ∈ tr.attempts, isValidVideoFile f = true := by
  intro env files tr htr f hf
  by_cases h0 : (files.filter (fun f => isValidVideoFile f)).length = 0
  · rw [show handleFiles env files =
      (if (files.filter (fun f => isValidVideoFile f)).length = 0 then none
       else some (batchGenerateThumbnails env
         (files.filter (fun f => isValidVideoFile f)) 1)) from rfl,
      if_pos h0] at htr
    exact absurd htr (by simp)
  · rw [show handleFiles env files =
      (if (files.filter (fun f => isValidVideoFile f)).length = 0 then none
       else some (batchGenerateThumbnails env
         (files.filter (fun f => isValidVideoFile f)) 1)) from rfl,
      if_neg h0] at htr
    injection htr with htr
    rw [← htr] at hf
    rw [show (batchGenerateThumbnails env
        (files.filter (fun f => isValidVideoFile f)) 1).attempts =
      files.filter (fun f => isValidVideoFile f) from
      batchGo_attempts env 1 _ 0 _] at hf
    exact List.of_mem_filter hf

/-- Concrete instantiation of `handleFiles_only_valid_reach_extractor`: in
a selection containing a valid video and a JPEG, the file that reaches the
extractor is the whitelisted one. -/
theorem handleFiles_only_valid_reach_extractor_witness :
    isValidVideoFile fileA = true :=
  handleFiles_only_valid_reach_extractor env3 [fileA, badFile]
    (batchGenerateThumbnails env3 [fileA] 1) rfl fileA (by decide)
